import Mathlib

/-!
Shallow embedding of the warehouse stock ledger undo engine
(`src/app/api/stock/history/route.ts`, `POST`) and of the client-side
eligibility predicate (`src/components/transaction-history-table.tsx`,
`hasNewerTransactions`).

Machine data: ids are strings, timestamps are naturals, quantities are
integers (the database column is a signed integer; non-negativity is an
invariant, not a type).  The database state is a list of stock rows and a
list of transaction rows; Prisma's unique constraints justify the
uniqueness hypotheses stated where they matter.
-/

inductive TransactionType
  | PUTAWAY
  | REMOVE
  | MOVE
deriving DecidableEq, Repr

inductive TxStatus
  | COMPLETED
  | UNDONE
deriving DecidableEq, Repr

/-- A row of the `transaction` table (fields used by the undo route). -/
structure Transaction where
  id : String
  type : TransactionType
  quantity : Int
  itemId : String
  fromLocationId : Option String
  toLocationId : Option String
  userId : String
  createdAt : Nat
  status : TxStatus
  undoneAt : Option Nat := none
  undoneById : Option String := none
deriving DecidableEq, Repr

/-- A row of the `stock` table: key `(itemId, locationId)`, value `quantity`. -/
structure Stock where
  itemId : String
  locationId : String
  quantity : Int
deriving DecidableEq, Repr

/-- The shared store: stock rows and transaction-log rows. -/
structure DB where
  stock : List Stock
  transactions : List Transaction
deriving DecidableEq, Repr

/-- Lookup `prisma.transaction.findUnique({ where: { id } })` on a row list. -/
def findTransactionList (txns : List Transaction) (tid : String) : Option Transaction :=
  txns.find? (fun t => decide (t.id = tid))

/-- Record lookup by id against the store. -/
def findTransaction (db : DB) (tid : String) : Option Transaction :=
  findTransactionList db.transactions tid

/-- Lookup `prisma.stock.findUnique({ where: { itemId_locationId } })`. -/
def stockFindUnique (stock : List Stock) (i l : String) : Option Stock :=
  stock.find? (fun e => decide (e.itemId = i ∧ e.locationId = l))

/-- Quantity at a key, zero when the row is absent. -/
def getQty (stock : List Stock) (i l : String) : Int :=
  match stockFindUnique stock i l with
  | none => 0
  | some e => e.quantity

/-- The recency query of the route (`findFirst` with `itemId`, `createdAt > `,
`status COMPLETED`). -/
def moreRecentCompleted (db : DB) (t : Transaction) : Bool :=
  db.transactions.any (fun u =>
    decide (u.itemId = t.itemId ∧ t.createdAt < u.createdAt ∧ u.status = TxStatus.COMPLETED))

/-- The same query as a proposition, in the spec's words: some other completed
transaction for the item is strictly newer. -/
def existsNewerCompleted (db : DB) (t : Transaction) : Prop :=
  ∃ u ∈ db.transactions,
    u.itemId = t.itemId ∧ t.createdAt < u.createdAt ∧ u.status = TxStatus.COMPLETED

/-- Write `tx.stock.update` with a quantity decrement; Prisma rejects the
update (here: `none`) when no row matches the unique key. -/
def stockDecrement (stock : List Stock) (i l : String) (q : Int) : Option (List Stock) :=
  if stock.any (fun e => decide (e.itemId = i ∧ e.locationId = l)) then
    some (stock.map (fun e =>
      if e.itemId = i ∧ e.locationId = l then { e with quantity := e.quantity - q } else e))
  else none

/-- Write `tx.stock.upsert`: increment the row when present, create it with
quantity `q` when absent. -/
def stockUpsertIncrement (stock : List Stock) (i l : String) (q : Int) : List Stock :=
  if stock.any (fun e => decide (e.itemId = i ∧ e.locationId = l)) then
    stock.map (fun e =>
      if e.itemId = i ∧ e.locationId = l then { e with quantity := e.quantity + q } else e)
  else stock ++ [⟨i, l, q⟩]

/-- The record as returned by `tx.transaction.update`: status flips to
UNDONE, `undoneAt` is the current time, and `undoneById` is the record's own
`userId` (the original actor) — line 358 of the route. -/
def markUndoneRecord (t : Transaction) (now : Nat) : Transaction :=
  { t with
    status := TxStatus.UNDONE
    undoneAt := some now
    undoneById := some t.userId }

/-- Write `tx.transaction.update({ where: { id } })` applied to the row list. -/
def markUndone (txns : List Transaction) (tid : String) (now : Nat) : List Transaction :=
  txns.map (fun t => if t.id = tid then markUndoneRecord t now else t)

inductive UndoError
  | notFound
  | alreadyUndone
  | notLatest
  | insufficientStock
  | internalError
deriving DecidableEq, Repr

/-- The validation phase of the POST handler: every read and check that runs
before `prisma.$transaction`.  `internalError` stands for a thrown exception
caught by the route's catch-all (status 500): a Prisma query keyed on a
missing location id, or the `console.log(destinationStock.quantity, …)` on
line 182 dereferencing `null` when the destination row is absent. -/
def undoValidate (db : DB) (tid : String) : Except UndoError Transaction :=
  match findTransaction db tid with
  | none => Except.error UndoError.notFound
  | some t =>
    if t.status = TxStatus.UNDONE then Except.error UndoError.alreadyUndone
    else if moreRecentCompleted db t then Except.error UndoError.notLatest
    else if t.type = TransactionType.MOVE ∨ t.type = TransactionType.PUTAWAY then
      match t.toLocationId with
      | none => Except.error UndoError.internalError
      | some toLoc =>
        match stockFindUnique db.stock t.itemId toLoc with
        | none => Except.error UndoError.internalError
        | some e =>
          if e.quantity < t.quantity then Except.error UndoError.insufficientStock
          else Except.ok t
    else Except.ok t

/-- The stock writes of the `prisma.$transaction` callback, per record type.
`none` means the callback threw (missing row for an `update`, missing
location id), in which case the transaction rolls back. -/
def undoCommitStock (t : Transaction) (stock : List Stock) : Option (List Stock) :=
  match t.type with
  | TransactionType.PUTAWAY =>
    match t.toLocationId with
    | none => none
    | some toLoc => stockDecrement stock t.itemId toLoc t.quantity
  | TransactionType.REMOVE =>
    match t.fromLocationId with
    | none => none
    | some fromLoc => some (stockUpsertIncrement stock t.itemId fromLoc t.quantity)
  | TransactionType.MOVE =>
    match t.toLocationId with
    | none => none
    | some toLoc =>
      match stockDecrement stock t.itemId toLoc t.quantity with
      | none => none
      | some stock1 =>
        match t.fromLocationId with
        | none => none
        | some fromLoc => some (stockUpsertIncrement stock1 t.itemId fromLoc t.quantity)

/-- The whole `prisma.$transaction` callback: the stock writes and the record
flip commit together, or the callback fails and nothing commits. -/
def undoCommit (db : DB) (t : Transaction) (now : Nat) : Option (DB × Transaction) :=
  match undoCommitStock t db.stock with
  | none => none
  | some stockNew =>
    some ({ stock := stockNew, transactions := markUndone db.transactions t.id now },
          markUndoneRecord t now)

inductive UndoResult
  | ok (t : Transaction)
  | err (e : UndoError)
deriving DecidableEq, Repr

/-- The POST handler: validation phase, then the write transaction.  The
request body carries only `transactionId`; the handler reads no requesting
user.  On any error the store is returned unchanged (the validation errors
return before any write, and a failed write transaction rolls back). -/
def undoPost (db : DB) (tid : String) (now : Nat) : UndoResult × DB :=
  match undoValidate db tid with
  | Except.error e => (UndoResult.err e, db)
  | Except.ok t =>
    match undoCommit db t now with
    | none => (UndoResult.err UndoError.internalError, db)
    | some (dbNew, tNew) => (UndoResult.ok tNew, dbNew)

/-- Client-side predicate of `transaction-history-table.tsx` (lines 48–55):
the list is filtered for same item, status COMPLETED, strictly newer
`createdAt`, and the button is disabled when the filter is non-empty. -/
def hasNewerTransactions (transactions : List Transaction) (current : Transaction) : Bool :=
  (transactions.filter (fun t =>
    decide (t.itemId = current.itemId ∧ t.status = TxStatus.COMPLETED ∧
      current.createdAt < t.createdAt))).length > 0

/-- The data-model invariant of the stock table: the compound key
`(itemId, locationId)` is unique (Prisma `@@unique`). -/
def stockKeyUnique (stock : List Stock) : Prop :=
  ∀ a ∈ stock, ∀ b ∈ stock, a.itemId = b.itemId → a.locationId = b.locationId → a = b

/-- I1 as a predicate on the stock table. -/
def stockNonneg (stock : List Stock) : Prop :=
  ∀ e ∈ stock, 0 ≤ e.quantity

/-- The data-model invariant of the log: recorded quantities are positive
(here only non-negativity is needed). -/
def txnQtyNonneg (txns : List Transaction) : Prop :=
  ∀ t ∈ txns, 0 ≤ t.quantity

/-! ### Concrete sample stores used by witnesses and counterexamples -/

/-- Older completed putaway of item X into L1. -/
def ordT1 : Transaction :=
  { id := "t1", type := TransactionType.PUTAWAY, quantity := 10, itemId := "X",
    fromLocationId := none, toLocationId := some "L1", userId := "alice",
    createdAt := 1, status := TxStatus.COMPLETED }

/-- Newer completed putaway of item X into L1. -/
def ordT2 : Transaction :=
  { id := "t2", type := TransactionType.PUTAWAY, quantity := 5, itemId := "X",
    fromLocationId := none, toLocationId := some "L1", userId := "bob",
    createdAt := 2, status := TxStatus.COMPLETED }

/-- Store with two completed putaways for the same item and enough stock. -/
def ordDb : DB :=
  { stock := [⟨"X", "L1", 15⟩], transactions := [ordT1, ordT2] }

/-- The spec's named edge case: MOVE of 5 from L1 into L2 … -/
def edgeMove : Transaction :=
  { id := "m1", type := TransactionType.MOVE, quantity := 5, itemId := "X",
    fromLocationId := some "L1", toLocationId := some "L2", userId := "alice",
    createdAt := 1, status := TxStatus.COMPLETED }

/-- Next step of the edge case: a REMOVE of 1 from L2. -/
def edgeRemove : Transaction :=
  { id := "r1", type := TransactionType.REMOVE, quantity := 1, itemId := "X",
    fromLocationId := some "L2", toLocationId := none, userId := "alice",
    createdAt := 2, status := TxStatus.COMPLETED }

/-- State after both operations of the edge case, both records COMPLETED. -/
def edgeDb : DB :=
  { stock := [⟨"X", "L1", 0⟩, ⟨"X", "L2", 4⟩], transactions := [edgeMove, edgeRemove] }

/-- The edge-case REMOVE with status UNDONE instead. -/
def edgeRemoveU : Transaction :=
  { edgeRemove with
    status := TxStatus.UNDONE
    undoneAt := some 3
    undoneById := some "alice" }

/-- Variant state in which the newer REMOVE is already undone but stock at L2
is 4 (below the MOVE quantity). -/
def edgeDbU : DB :=
  { stock := [⟨"X", "L1", 0⟩, ⟨"X", "L2", 4⟩], transactions := [edgeMove, edgeRemoveU] }

/-- Completed putaway whose destination stock row is absent. -/
def absT : Transaction :=
  { id := "p1", type := TransactionType.PUTAWAY, quantity := 5, itemId := "X",
    fromLocationId := none, toLocationId := some "L9", userId := "alice",
    createdAt := 1, status := TxStatus.COMPLETED }

/-- Store with no stock row for the putaway's destination. -/
def absDb : DB :=
  { stock := [], transactions := [absT] }

/-- Completed putaway of 5 into L1 with exactly 5 on hand. -/
def raceT : Transaction :=
  { id := "t1", type := TransactionType.PUTAWAY, quantity := 5, itemId := "X",
    fromLocationId := none, toLocationId := some "L1", userId := "alice",
    createdAt := 1, status := TxStatus.COMPLETED }

/-- Store on which two concurrent undo calls of `raceT` race. -/
def raceDb : DB :=
  { stock := [⟨"X", "L1", 5⟩], transactions := [raceT] }

/-- Completed remove of 3 of item X out of L1; no stock rows remain. -/
def remT : Transaction :=
  { id := "rm1", type := TransactionType.REMOVE, quantity := 3, itemId := "X",
    fromLocationId := some "L1", toLocationId := none, userId := "carol",
    createdAt := 4, status := TxStatus.COMPLETED }

/-- Store for undoing a REMOVE whose source row is absent. -/
def remDb : DB :=
  { stock := [], transactions := [remT] }

instance (db : DB) (t : Transaction) : Decidable (existsNewerCompleted db t) := by
  unfold existsNewerCompleted
  infer_instance

instance (stock : List Stock) : Decidable (stockKeyUnique stock) := by
  unfold stockKeyUnique
  infer_instance

instance (stock : List Stock) : Decidable (stockNonneg stock) := by
  unfold stockNonneg
  infer_instance

instance (txns : List Transaction) : Decidable (txnQtyNonneg txns) := by
  unfold txnQtyNonneg
  infer_instance

/-! ### Basic lemmas about the store operations -/

theorem markUndoneRecord_id (t : Transaction) (now : Nat) :
    (markUndoneRecord t now).id = t.id := rfl

theorem findTransactionList_some {txns : List Transaction} {tid : String} {t : Transaction}
    (h : findTransactionList txns tid = some t) : t ∈ txns ∧ t.id = tid := by
  unfold findTransactionList at h
  refine ⟨List.mem_of_find?_eq_some h, ?_⟩
  have hp := List.find?_some h
  exact of_decide_eq_true hp

theorem moreRecentCompleted_iff (db : DB) (t : Transaction) :
    moreRecentCompleted db t = true ↔ existsNewerCompleted db t := by
  simp [moreRecentCompleted, existsNewerCompleted, List.any_eq_true]

theorem status_completed_of_ne_undone {t : Transaction} (h : ¬ t.status = TxStatus.UNDONE) :
    t.status = TxStatus.COMPLETED := by
  cases hs : t.status
  · rfl
  · exact absurd hs h

/-! ### Characterizations of the validation phase -/

theorem undoValidate_err_notFound {db : DB} {tid : String}
    (h : findTransaction db tid = none) :
    undoValidate db tid = Except.error UndoError.notFound := by
  simp [undoValidate, h]

theorem undoValidate_err_alreadyUndone {db : DB} {tid : String} {t : Transaction}
    (h : findTransaction db tid = some t) (hs : t.status = TxStatus.UNDONE) :
    undoValidate db tid = Except.error UndoError.alreadyUndone := by
  simp [undoValidate, h, hs]

theorem undoValidate_err_notLatest {db : DB} {tid : String} {t : Transaction}
    (h : findTransaction db tid = some t) (hs : t.status = TxStatus.COMPLETED)
    (hm : moreRecentCompleted db t = true) :
    undoValidate db tid = Except.error UndoError.notLatest := by
  have hne : ¬ t.status = TxStatus.UNDONE := by rw [hs]; intro hc; cases hc
  simp [undoValidate, h, hne, hm]

theorem undoValidate_some {db : DB} {tid : String} {t : Transaction}
    (h : findTransaction db tid = some t) :
    undoValidate db tid =
      (if t.status = TxStatus.UNDONE then Except.error UndoError.alreadyUndone
       else if moreRecentCompleted db t then Except.error UndoError.notLatest
       else if t.type = TransactionType.MOVE ∨ t.type = TransactionType.PUTAWAY then
         match t.toLocationId with
         | none => Except.error UndoError.internalError
         | some toLoc =>
           match stockFindUnique db.stock t.itemId toLoc with
           | none => Except.error UndoError.internalError
           | some e =>
             if e.quantity < t.quantity then Except.error UndoError.insufficientStock
             else Except.ok t
       else Except.ok t) := by
  unfold undoValidate
  rw [h]

theorem undoValidate_notLatest_only_if {db : DB} {tid : String} {t : Transaction}
    (h : findTransaction db tid = some t)
    (he : undoValidate db tid = Except.error UndoError.notLatest) :
    moreRecentCompleted db t = true := by
  rw [undoValidate_some h] at he
  split at he
  · cases he
  · split at he
    · rename_i hm
      exact hm
    · split at he
      · split at he
        · cases he
        · split at he
          · cases he
          · split at he <;> cases he
      · cases he

theorem undoValidate_ok_inv {db : DB} {tid : String} {t : Transaction}
    (h : undoValidate db tid = Except.ok t) :
    findTransaction db tid = some t ∧ t.status = TxStatus.COMPLETED ∧
      moreRecentCompleted db t = false ∧
      ((t.type = TransactionType.MOVE ∨ t.type = TransactionType.PUTAWAY) →
        ∃ toLoc e, t.toLocationId = some toLoc ∧
          stockFindUnique db.stock t.itemId toLoc = some e ∧ t.quantity ≤ e.quantity) := by
  cases hf : findTransaction db tid
  · rw [undoValidate_err_notFound hf] at h
    cases h
  case some t0 =>
    rw [undoValidate_some hf] at h
    split at h
    · cases h
    · rename_i hs
      split at h
      · cases h
      · rename_i hm
        have hmf : moreRecentCompleted db t0 = false := by
          cases hb : moreRecentCompleted db t0
          · rfl
          · exact absurd hb hm
        split at h
        · split at h
          · cases h
          · rename_i toLoc hto
            split at h
            · cases h
            · rename_i e hsf
              split at h
              · cases h
              · rename_i hq
                cases h
                exact ⟨rfl, status_completed_of_ne_undone hs, hmf,
                  fun _ => ⟨toLoc, e, hto, hsf, le_of_not_lt hq⟩⟩
        · rename_i hty
          cases h
          exact ⟨rfl, status_completed_of_ne_undone hs, hmf, fun hc => absurd hc hty⟩

/-! ### The handler around the two phases -/

theorem undoPost_of_validate_err {db : DB} {tid : String} {e : UndoError} (now : Nat)
    (h : undoValidate db tid = Except.error e) :
    undoPost db tid now = (UndoResult.err e, db) := by
  simp [undoPost, h]

theorem undoPost_of_validate_ok {db : DB} {tid : String} {t : Transaction} (now : Nat)
    (h : undoValidate db tid = Except.ok t) :
    undoPost db tid now =
      match undoCommit db t now with
      | none => (UndoResult.err UndoError.internalError, db)
      | some (dbNew, tNew) => (UndoResult.ok tNew, dbNew) := by
  simp [undoPost, h]

theorem undoPost_ok_inv {db : DB} {tid : String} {now : Nat} {tNew : Transaction}
    (h : (undoPost db tid now).1 = UndoResult.ok tNew) :
    ∃ t dbNew, undoValidate db tid = Except.ok t ∧
      undoCommit db t now = some (dbNew, tNew) ∧
      undoPost db tid now = (UndoResult.ok tNew, dbNew) := by
  cases hv : undoValidate db tid
  case error e =>
    rw [undoPost_of_validate_err now hv] at h
    cases h
  case ok t =>
    have hp := undoPost_of_validate_ok now hv
    cases hc : undoCommit db t now
    · rw [hc] at hp
      rw [hp] at h
      cases h
    case some p =>
      obtain ⟨dbNew, tN⟩ := p
      rw [hc] at hp
      rw [hp] at h
      cases h
      exact ⟨t, dbNew, rfl, hc, hp⟩

/-! ### Stock row list lemmas -/

theorem stockFindUnique_some {stock : List Stock} {i l : String} {e : Stock}
    (h : stockFindUnique stock i l = some e) :
    e ∈ stock ∧ e.itemId = i ∧ e.locationId = l := by
  unfold stockFindUnique at h
  refine ⟨List.mem_of_find?_eq_some h, ?_⟩
  have hp := List.find?_some h
  exact of_decide_eq_true hp

theorem stockFindUnique_map_keep {i l : String} (stock : List Stock)
    (f : Stock → Stock)
    (hkey : ∀ e, (f e).itemId = e.itemId ∧ (f e).locationId = e.locationId) :
    stockFindUnique (stock.map f) i l = (stockFindUnique stock i l).map f := by
  unfold stockFindUnique
  induction stock with
  | nil => rfl
  | cons a rest ih =>
    simp only [List.map_cons, List.find?]
    have hfa : (decide ((f a).itemId = i ∧ (f a).locationId = l)) =
        (decide (a.itemId = i ∧ a.locationId = l)) := by
      rw [(hkey a).1, (hkey a).2]
    rw [hfa]
    cases hb : decide (a.itemId = i ∧ a.locationId = l)
    · exact ih
    · rfl

theorem stockFindUnique_of_any {stock : List Stock} {i l : String}
    (h : stock.any (fun e => decide (e.itemId = i ∧ e.locationId = l)) = true) :
    ∃ e, stockFindUnique stock i l = some e := by
  unfold stockFindUnique
  cases hf : stock.find? (fun e => decide (e.itemId = i ∧ e.locationId = l))
  · rw [List.find?_eq_none] at hf
    obtain ⟨e, he, hp⟩ := List.any_eq_true.mp h
    exact absurd hp (hf e he)
  · exact ⟨_, rfl⟩

theorem stockDecrement_eq_map {stock : List Stock} {i l : String} {q : Int} {e0 : Stock}
    (h0 : stockFindUnique stock i l = some e0) :
    stockDecrement stock i l q =
      some (stock.map (fun e =>
        if e.itemId = i ∧ e.locationId = l then { e with quantity := e.quantity - q }
        else e)) := by
  obtain ⟨he, hi, hl⟩ := stockFindUnique_some h0
  have hany : stock.any (fun e => decide (e.itemId = i ∧ e.locationId = l)) = true :=
    List.any_eq_true.mpr ⟨e0, he, by simp [hi, hl]⟩
  unfold stockDecrement
  rw [hany]
  simp

theorem getQty_decrement {stock : List Stock} {i l : String} {q : Int} {stockNew : List Stock}
    (h : stockDecrement stock i l q = some stockNew) :
    getQty stockNew i l = getQty stock i l - q ∧
      (∀ i2 l2, ¬(i2 = i ∧ l2 = l) → getQty stockNew i2 l2 = getQty stock i2 l2) := by
  unfold stockDecrement at h
  split at h
  case isFalse => cases h
  case isTrue hany =>
    cases h
    obtain ⟨e0, hf0⟩ := stockFindUnique_of_any hany
    have hkey : ∀ e : Stock,
        ((if e.itemId = i ∧ e.locationId = l then { e with quantity := e.quantity - q }
          else e) : Stock).itemId = e.itemId ∧
        ((if e.itemId = i ∧ e.locationId = l then { e with quantity := e.quantity - q }
          else e) : Stock).locationId = e.locationId := by
      intro e
      by_cases hc : e.itemId = i ∧ e.locationId = l <;> simp [hc]
    constructor
    · unfold getQty
      rw [stockFindUnique_map_keep stock _ hkey, hf0]
      obtain ⟨he0, hi0, hl0⟩ := stockFindUnique_some hf0
      simp [hi0, hl0]
    · intro i2 l2 hne
      unfold getQty
      rw [stockFindUnique_map_keep stock _ hkey]
      cases hf2 : stockFindUnique stock i2 l2
      · rfl
      case some e2 =>
        obtain ⟨he2, hi2, hl2⟩ := stockFindUnique_some hf2
        have : ¬(e2.itemId = i ∧ e2.locationId = l) := by
          rw [hi2, hl2]
          exact hne
        simp [this]

theorem getQty_upsert (stock : List Stock) (i l : String) (q : Int) :
    getQty (stockUpsertIncrement stock i l q) i l = getQty stock i l + q ∧
      (∀ i2 l2, ¬(i2 = i ∧ l2 = l) →
        getQty (stockUpsertIncrement stock i l q) i2 l2 = getQty stock i2 l2) := by
  unfold stockUpsertIncrement
  split
  case isTrue hany =>
    obtain ⟨e0, hf0⟩ := stockFindUnique_of_any hany
    have hkey : ∀ e : Stock,
        ((if e.itemId = i ∧ e.locationId = l then { e with quantity := e.quantity + q }
          else e) : Stock).itemId = e.itemId ∧
        ((if e.itemId = i ∧ e.locationId = l then { e with quantity := e.quantity + q }
          else e) : Stock).locationId = e.locationId := by
      intro e
      by_cases hc : e.itemId = i ∧ e.locationId = l <;> simp [hc]
    constructor
    · unfold getQty
      rw [stockFindUnique_map_keep stock _ hkey, hf0]
      obtain ⟨he0, hi0, hl0⟩ := stockFindUnique_some hf0
      simp [hi0, hl0]
    · intro i2 l2 hne
      unfold getQty
      rw [stockFindUnique_map_keep stock _ hkey]
      cases hf2 : stockFindUnique stock i2 l2
      · rfl
      case some e2 =>
        obtain ⟨he2, hi2, hl2⟩ := stockFindUnique_some hf2
        have : ¬(e2.itemId = i ∧ e2.locationId = l) := by
          rw [hi2, hl2]
          exact hne
        simp [this]
  case isFalse hany =>
    have hanyf : stock.any (fun e => decide (e.itemId = i ∧ e.locationId = l)) = false := by
      cases hb : stock.any (fun e => decide (e.itemId = i ∧ e.locationId = l))
      · rfl
      · exact absurd hb hany
    have hnone : stockFindUnique stock i l = none := by
      unfold stockFindUnique
      rw [List.find?_eq_none]
      exact List.any_eq_false.mp hanyf
    constructor
    · unfold getQty stockFindUnique
      rw [List.find?_append]
      unfold stockFindUnique at hnone
      rw [hnone]
      simp
    · intro i2 l2 hne
      unfold getQty stockFindUnique
      rw [List.find?_append]
      have hsingle : List.find? (fun e => decide (e.itemId = i2 ∧ e.locationId = l2))
          [({ itemId := i, locationId := l, quantity := q } : Stock)] = none := by
        rw [List.find?_eq_none]
        intro e he
        simp at he
        subst he
        simp
        intro hi2
        intro hl2
        exact hne ⟨hi2.symm, hl2.symm⟩
      rw [hsingle]
      cases stock.find? (fun e => decide (e.itemId = i2 ∧ e.locationId = l2)) <;> rfl


theorem stockDecrement_nonneg {stock stockNew : List Stock} {i l : String} {q : Int}
    {e0 : Stock}
    (huniq : stockKeyUnique stock) (h0 : stockNonneg stock)
    (hfind : stockFindUnique stock i l = some e0) (hq : q ≤ e0.quantity)
    (h : stockDecrement stock i l q = some stockNew) :
    stockNonneg stockNew := by
  rw [stockDecrement_eq_map hfind] at h
  cases h
  intro e he
  obtain ⟨a, ha, rfl⟩ := List.mem_map.mp he
  by_cases hc : a.itemId = i ∧ a.locationId = l
  · obtain ⟨he0, hi0, hl0⟩ := stockFindUnique_some hfind
    have : a = e0 := huniq a ha e0 he0 (by rw [hc.1, hi0]) (by rw [hc.2, hl0])
    subst this
    simp [hc]
    omega
  · simp [hc]
    exact h0 a ha

theorem stockUpsertIncrement_nonneg {stock : List Stock} {i l : String} {q : Int}
    (h0 : stockNonneg stock) (hq : 0 ≤ q) :
    stockNonneg (stockUpsertIncrement stock i l q) := by
  unfold stockUpsertIncrement
  split
  · intro e he
    obtain ⟨a, ha, rfl⟩ := List.mem_map.mp he
    by_cases hc : a.itemId = i ∧ a.locationId = l
    · simp [hc]
      have := h0 a ha
      omega
    · simp [hc]
      exact h0 a ha
  · intro e he
    rcases List.mem_append.mp he with hl1 | hl2
    · exact h0 e hl1
    · simp at hl2
      subst hl2
      exact hq

/-! ### Lemmas about the record flip -/

theorem markUndone_find_self (txns : List Transaction) (tid : String) (now : Nat) :
    findTransactionList (markUndone txns tid now) tid =
      (findTransactionList txns tid).map (fun t => markUndoneRecord t now) := by
  unfold findTransactionList markUndone
  induction txns with
  | nil => rfl
  | cons a rest ih =>
    simp only [List.map_cons, List.find?]
    by_cases ha : a.id = tid
    · simp [ha, markUndoneRecord]
    · have h2 : decide (a.id = tid) = false := by simp [ha]
      simp only [if_neg ha, h2]
      exact ih

theorem markUndone_length (txns : List Transaction) (tid : String) (now : Nat) :
    (markUndone txns tid now).length = txns.length := by
  simp [markUndone]

theorem markUndone_mem_of_ne {txns : List Transaction} {tid : String} {now : Nat}
    {u : Transaction} (hu : u ∈ txns) (hne : ¬ u.id = tid) :
    u ∈ markUndone txns tid now := by
  have hfix : (if u.id = tid then markUndoneRecord u now else u) = u := if_neg hne
  unfold markUndone
  rw [← hfix]
  exact List.mem_map_of_mem _ hu

theorem markUndone_mem_inv {txns : List Transaction} {tid : String} {now : Nat}
    {u : Transaction} (hu : u ∈ markUndone txns tid now) :
    (∃ v ∈ txns, u = markUndoneRecord v now ∧ v.id = tid) ∨ (u ∈ txns ∧ ¬ u.id = tid) := by
  unfold markUndone at hu
  obtain ⟨v, hv, rfl⟩ := List.mem_map.mp hu
  by_cases hid : v.id = tid
  · exact Or.inl ⟨v, hv, by simp [hid], hid⟩
  · right
    constructor
    · simpa [hid] using hv
    · simp [hid]

theorem undoPost_of_commit_some {db : DB} {tid : String} {t : Transaction} {now : Nat}
    {dbN : DB} {tN : Transaction}
    (hv : undoValidate db tid = Except.ok t)
    (hc : undoCommit db t now = some (dbN, tN)) :
    undoPost db tid now = (UndoResult.ok tN, dbN) := by
  simp [undoPost, hv, hc]

theorem undoPost_of_commit_none {db : DB} {tid : String} {t : Transaction} {now : Nat}
    (hv : undoValidate db tid = Except.ok t)
    (hc : undoCommit db t now = none) :
    undoPost db tid now = (UndoResult.err UndoError.internalError, db) := by
  simp [undoPost, hv, hc]

theorem undoCommit_some_inv {db : DB} {t : Transaction} {now : Nat} {dbN : DB}
    {tN : Transaction}
    (hc : undoCommit db t now = some (dbN, tN)) :
    undoCommitStock t db.stock = some dbN.stock ∧
    dbN.transactions = markUndone db.transactions t.id now ∧
    tN = markUndoneRecord t now := by
  unfold undoCommit at hc
  cases hcs : undoCommitStock t db.stock <;> rw [hcs] at hc
  · cases hc
  · cases hc
    exact ⟨rfl, rfl, rfl⟩

theorem undoValidate_err_insufficient {db : DB} {tid : String} {t : Transaction}
    {toLoc : String} {e : Stock}
    (hf : findTransaction db tid = some t) (hs : t.status = TxStatus.COMPLETED)
    (hm : moreRecentCompleted db t = false)
    (hty : t.type = TransactionType.MOVE ∨ t.type = TransactionType.PUTAWAY)
    (hto : t.toLocationId = some toLoc)
    (hsf : stockFindUnique db.stock t.itemId toLoc = some e)
    (hq : e.quantity < t.quantity) :
    undoValidate db tid = Except.error UndoError.insufficientStock := by
  have hnU : ¬ t.status = TxStatus.UNDONE := by
    rw [hs]
    intro hc
    cases hc
  rw [undoValidate_some hf]
  simp [hnU, hm, eq_true hty, hto, hsf, hq]

theorem undoValidate_ok_of_remove {db : DB} {tid : String} {t : Transaction}
    (hf : findTransaction db tid = some t) (hs : t.status = TxStatus.COMPLETED)
    (hm : moreRecentCompleted db t = false)
    (hty : t.type = TransactionType.REMOVE) :
    undoValidate db tid = Except.ok t := by
  have hnU : ¬ t.status = TxStatus.UNDONE := by
    rw [hs]
    intro hc
    cases hc
  have hor : ¬ (t.type = TransactionType.MOVE ∨ t.type = TransactionType.PUTAWAY) := by
    rw [hty]
    rintro (hc | hc) <;> cases hc
  rw [undoValidate_some hf]
  simp [hnU, hm, hor]

/-- The NotLatest outcome of the whole handler, characterized by the recency
query, for a found COMPLETED record. -/
theorem undoPost_notLatest_iff {db : DB} {tid : String} {t : Transaction} (now : Nat)
    (hf : findTransaction db tid = some t) (hs : t.status = TxStatus.COMPLETED) :
    ((undoPost db tid now).1 = UndoResult.err UndoError.notLatest ↔
      existsNewerCompleted db t) := by
  constructor
  · intro he
    rw [← moreRecentCompleted_iff]
    cases hv : undoValidate db tid
    case error e =>
      rw [undoPost_of_validate_err now hv] at he
      cases he
      exact undoValidate_notLatest_only_if hf hv
    case ok t0 =>
      cases hc : undoCommit db t0 now
      · rw [undoPost_of_commit_none hv hc] at he
        cases he
      case some p =>
        obtain ⟨dbN, tN⟩ := p
        rw [undoPost_of_commit_some hv hc] at he
        cases he
  · intro hex
    have hm := (moreRecentCompleted_iff db t).mpr hex
    rw [undoPost_of_validate_err now (undoValidate_err_notLatest hf hs hm)]

/-! ### Claim theorems -/

/-- C1: an undo of a found COMPLETED record fails NotLatest exactly when some
other COMPLETED transaction for the same item has strictly greater createdAt;
concretely, for T1 older and T2 newer both COMPLETED on one item, undo(T1)
fails NotLatest while T2 is COMPLETED, and after undo(T2) succeeds, undo(T1)
succeeds. -/
theorem undo_notLatest_characterization :
    (∀ (db : DB) (tid : String) (now : Nat) (t : Transaction),
      findTransaction db tid = some t → t.status = TxStatus.COMPLETED →
      ((undoPost db tid now).1 = UndoResult.err UndoError.notLatest ↔
        existsNewerCompleted db t)) ∧
    undoPost ordDb "t1" 10 = (UndoResult.err UndoError.notLatest, ordDb) ∧
    (undoPost ordDb "t2" 10).1 = UndoResult.ok (markUndoneRecord ordT2 10) ∧
    (undoPost (undoPost ordDb "t2" 10).2 "t1" 11).1 =
      UndoResult.ok (markUndoneRecord ordT1 11) := by
  refine ⟨?_, by decide, by decide, by decide⟩
  intro db tid now t hf hs
  exact undoPost_notLatest_iff now hf hs

/-- Witness for C1: the characterization applied at the two-putaway store. -/
theorem undo_notLatest_characterization_witness :
    (undoPost ordDb "t1" 10).1 = UndoResult.err UndoError.notLatest ↔
      existsNewerCompleted ordDb ordT1 :=
  undo_notLatest_characterization.1 ordDb "t1" 10 ordT1 (by decide) (by decide)

/-- C2 (counterexample): in the spec's named edge case with the MOVE and the
newer REMOVE both COMPLETED, undo of the MOVE fails NotLatest, not
InsufficientStock; and for a COMPLETED PUTAWAY whose destination stock row is
absent, the handler crashes into its catch-all (500) instead of returning
InsufficientStock. -/
theorem undo_insufficient_claim_counterexample :
    undoPost edgeDb "m1" 9 = (UndoResult.err UndoError.notLatest, edgeDb) ∧
    undoPost absDb "p1" 9 = (UndoResult.err UndoError.internalError, absDb) := by
  decide

/-- C2 (amended): an undo of a COMPLETED PUTAWAY or MOVE that passes the
recency check and whose destination stock row is present with quantity below
the record's quantity returns InsufficientStock with the store unchanged; in
the edge-case variant where the newer REMOVE is already UNDONE and L2 holds
4 < 5, undo of the MOVE fails InsufficientStock at L2. -/
theorem undo_insufficient_stock_amended :
    (∀ (db : DB) (tid : String) (now : Nat) (t : Transaction) (toLoc : String) (e : Stock),
      findTransaction db tid = some t → t.status = TxStatus.COMPLETED →
      ¬ existsNewerCompleted db t →
      (t.type = TransactionType.MOVE ∨ t.type = TransactionType.PUTAWAY) →
      t.toLocationId = some toLoc →
      stockFindUnique db.stock t.itemId toLoc = some e →
      e.quantity < t.quantity →
      undoPost db tid now = (UndoResult.err UndoError.insufficientStock, db)) ∧
    undoPost edgeDbU "m1" 9 = (UndoResult.err UndoError.insufficientStock, edgeDbU) := by
  refine ⟨?_, by decide⟩
  intro db tid now t toLoc e hf hs hl hty hto hsf hq
  have hm : moreRecentCompleted db t = false := by
    cases hb : moreRecentCompleted db t
    · rfl
    · exact absurd ((moreRecentCompleted_iff db t).mp hb) hl
  exact undoPost_of_validate_err now (undoValidate_err_insufficient hf hs hm hty hto hsf hq)

/-- Witness for C2's amended theorem at the edge-case variant store. -/
theorem undo_insufficient_stock_amended_witness :
    undoPost edgeDbU "m1" 9 = (UndoResult.err UndoError.insufficientStock, edgeDbU) :=
  undo_insufficient_stock_amended.1 edgeDbU "m1" 9 edgeMove "L2" ⟨"X", "L2", 4⟩
    (by decide) (by decide) (by decide) (by decide) (by decide) (by decide) (by decide)

/-- C4 (code evaluated at the failing input): the handler body reads only the
transaction id, and a successful undo stores the record's own userId as
undoneById — the original actor, not a requesting user.  Here the original
actor is "alice" and the flipped record carries undoneById = some "alice". -/
theorem undo_sets_undoneBy_to_original_actor :
    (undoPost raceDb "t1" 7).1 = UndoResult.ok (markUndoneRecord raceT 7) ∧
    (markUndoneRecord raceT 7).status = TxStatus.UNDONE ∧
    (markUndoneRecord raceT 7).undoneAt = some 7 ∧
    (markUndoneRecord raceT 7).undoneById = some raceT.userId ∧
    raceT.userId = "alice" := by
  decide

/-- C9 (code evaluated at the failing input): the validation reads run before
`prisma.$transaction`, which holds only the writes; two undo calls of the same
record can both validate against the same snapshot and then commit one after
the other, leaving quantity −5 and violating I1. -/
theorem undo_race_unserialized :
    undoValidate raceDb "t1" = Except.ok raceT ∧
    undoCommit raceDb raceT 10 =
      some ({ stock := [⟨"X", "L1", 0⟩],
              transactions := [markUndoneRecord raceT 10] }, markUndoneRecord raceT 10) ∧
    undoCommit { stock := [⟨"X", "L1", 0⟩],
                 transactions := [markUndoneRecord raceT 10] } raceT 11 =
      some ({ stock := [⟨"X", "L1", -5⟩],
              transactions := [markUndoneRecord (markUndoneRecord raceT 10) 11] },
            markUndoneRecord raceT 11) ∧
    getQty [⟨"X", "L1", -5⟩] "X" "L1" = -5 :=
  ⟨rfl, by decide⟩

/-- C6: undoing an already-UNDONE record answers AlreadyUndone and leaves the
store untouched; after a successful undo, a second undo of the same id
answers AlreadyUndone and mutates nothing further. -/
theorem undo_idempotent_safe (db : DB) (tid : String) (now now2 : Nat) :
    (∀ t, findTransaction db tid = some t → t.status = TxStatus.UNDONE →
      undoPost db tid now = (UndoResult.err UndoError.alreadyUndone, db)) ∧
    (∀ tNew, (undoPost db tid now).1 = UndoResult.ok tNew →
      undoPost (undoPost db tid now).2 tid now2 =
        (UndoResult.err UndoError.alreadyUndone, (undoPost db tid now).2)) := by
  constructor
  · intro t hf hs
    exact undoPost_of_validate_err now (undoValidate_err_alreadyUndone hf hs)
  · intro tNew hok
    obtain ⟨t, dbN, hv, hc, hp⟩ := undoPost_ok_inv hok
    obtain ⟨hcs, htr, htN⟩ := undoCommit_some_inv hc
    obtain ⟨hf, hsC, hmC, hstC⟩ := undoValidate_ok_inv hv
    have hid : t.id = tid := (findTransactionList_some hf).2
    have h2 : (undoPost db tid now).2 = dbN := by rw [hp]
    rw [h2]
    have hfind2 : findTransaction dbN tid = some (markUndoneRecord t now) := by
      unfold findTransaction
      rw [htr, hid, markUndone_find_self]
      unfold findTransaction at hf
      rw [hf]
      rfl
    exact undoPost_of_validate_err now2 (undoValidate_err_alreadyUndone hfind2 rfl)

/-- Witness for C6: the second undo of t2 after its successful undo. -/
theorem undo_idempotent_safe_witness :
    undoPost (undoPost ordDb "t2" 10).2 "t2" 11 =
      (UndoResult.err UndoError.alreadyUndone, (undoPost ordDb "t2" 10).2) :=
  (undo_idempotent_safe ordDb "t2" 10 11).2 (markUndoneRecord ordT2 10) (by decide)

/-- C7: undoing a found, COMPLETED, latest REMOVE always succeeds — no stock
sufficiency check runs — and adds the record's quantity back at the source
location (creating the row when absent). -/
theorem undo_remove_always_succeeds (db : DB) (tid : String) (now : Nat)
    (t : Transaction) (fromLoc : String)
    (hf : findTransaction db tid = some t)
    (hty : t.type = TransactionType.REMOVE)
    (hs : t.status = TxStatus.COMPLETED)
    (hlatest : ¬ existsNewerCompleted db t)
    (hfrom : t.fromLocationId = some fromLoc) :
    (undoPost db tid now).1 = UndoResult.ok (markUndoneRecord t now) ∧
    getQty (undoPost db tid now).2.stock t.itemId fromLoc =
      getQty db.stock t.itemId fromLoc + t.quantity := by
  have hm : moreRecentCompleted db t = false := by
    cases hb : moreRecentCompleted db t
    · rfl
    · exact absurd ((moreRecentCompleted_iff db t).mp hb) hlatest
  have hv := undoValidate_ok_of_remove hf hs hm hty
  have hcs : undoCommitStock t db.stock =
      some (stockUpsertIncrement db.stock t.itemId fromLoc t.quantity) := by
    simp [undoCommitStock, hty, hfrom]
  have hc : undoCommit db t now =
      some ({ stock := stockUpsertIncrement db.stock t.itemId fromLoc t.quantity,
              transactions := markUndone db.transactions t.id now },
            markUndoneRecord t now) := by
    simp [undoCommit, hcs]
  have hp := undoPost_of_commit_some hv hc
  rw [hp]
  exact ⟨rfl, (getQty_upsert db.stock t.itemId fromLoc t.quantity).1⟩

/-- Witness for C7: undoing a REMOVE whose source stock row is absent. -/
theorem undo_remove_always_succeeds_witness :
    (undoPost remDb "rm1" 5).1 = UndoResult.ok (markUndoneRecord remT 5) ∧
    getQty (undoPost remDb "rm1" 5).2.stock remT.itemId "L1" =
      getQty remDb.stock remT.itemId "L1" + remT.quantity :=
  undo_remove_always_succeeds remDb "rm1" 5 remT "L1" (by decide) (by decide)
    (by decide) (by decide) (by decide)

/-- C3: every error outcome of the handler leaves the store unchanged
(validation precedes all writes, and a failing write transaction rolls back),
and a success commits the compensating stock writes together with the record
flip, as one unit. -/
theorem undo_atomic (db : DB) (tid : String) (now : Nat) :
    (∀ e, (undoPost db tid now).1 = UndoResult.err e → (undoPost db tid now).2 = db) ∧
    (∀ tNew, (undoPost db tid now).1 = UndoResult.ok tNew →
      ∃ t, findTransaction db tid = some t ∧ t.status = TxStatus.COMPLETED ∧
        tNew = markUndoneRecord t now ∧
        undoCommitStock t db.stock = some (undoPost db tid now).2.stock ∧
        (undoPost db tid now).2.transactions = markUndone db.transactions t.id now) := by
  constructor
  · intro e he
    cases hv : undoValidate db tid
    case error e2 =>
      rw [undoPost_of_validate_err now hv]
    case ok t =>
      cases hc : undoCommit db t now
      · rw [undoPost_of_commit_none hv hc]
      case some p =>
        obtain ⟨dbN, tN⟩ := p
        rw [undoPost_of_commit_some hv hc] at he
        cases he
  · intro tNew hok
    obtain ⟨t, dbN, hv, hc, hp⟩ := undoPost_ok_inv hok
    obtain ⟨hcs, htr, htN⟩ := undoCommit_some_inv hc
    obtain ⟨hf, hs, hmC, hstC⟩ := undoValidate_ok_inv hv
    have h2 : (undoPost db tid now).2 = dbN := by rw [hp]
    rw [h2]
    exact ⟨t, hf, hs, htN, hcs, htr⟩

/-- Witness for C3: the NotLatest error path leaves the edge-case store
unchanged. -/
theorem undo_atomic_witness :
    (undoPost edgeDb "m1" 9).2 = edgeDb :=
  (undo_atomic edgeDb "m1" 9).1 UndoError.notLatest (by decide)

/-- C5: starting from a well-formed store (unique stock keys, non-negative
record quantities) with every stock quantity ≥ 0, any undo call — any type,
success or failure — leaves every stock quantity ≥ 0. -/
theorem undo_preserves_nonneg (db : DB) (tid : String) (now : Nat)
    (huniq : stockKeyUnique db.stock) (hqs : txnQtyNonneg db.transactions)
    (h0 : stockNonneg db.stock) :
    stockNonneg (undoPost db tid now).2.stock := by
  cases hv : undoValidate db tid
  case error e =>
    rw [undoPost_of_validate_err now hv]
    exact h0
  case ok t =>
    obtain ⟨hf, hs, hm, hsuf⟩ := undoValidate_ok_inv hv
    have htq : 0 ≤ t.quantity := hqs t (findTransactionList_some hf).1
    cases hc : undoCommit db t now
    · rw [undoPost_of_commit_none hv hc]
      exact h0
    case some p =>
      obtain ⟨dbN, tN⟩ := p
      rw [undoPost_of_commit_some hv hc]
      show stockNonneg dbN.stock
      obtain ⟨hcs, htr, htN⟩ := undoCommit_some_inv hc
      cases hty : t.type
      case PUTAWAY =>
        obtain ⟨toLoc, e0, hto, hsf, hqe⟩ := hsuf (Or.inr hty)
        simp only [undoCommitStock, hty, hto] at hcs
        exact stockDecrement_nonneg huniq h0 hsf hqe hcs
      case REMOVE =>
        cases hfrom : t.fromLocationId
        · simp [undoCommitStock, hty, hfrom] at hcs
        case some fromLoc =>
          simp only [undoCommitStock, hty, hfrom, Option.some.injEq] at hcs
          rw [← hcs]
          exact stockUpsertIncrement_nonneg h0 htq
      case MOVE =>
        obtain ⟨toLoc, e0, hto, hsf, hqe⟩ := hsuf (Or.inl hty)
        cases hd : stockDecrement db.stock t.itemId toLoc t.quantity
        · simp [undoCommitStock, hty, hto, hd] at hcs
        case some stock1 =>
          have h1 : stockNonneg stock1 := stockDecrement_nonneg huniq h0 hsf hqe hd
          cases hfrom : t.fromLocationId
          · simp [undoCommitStock, hty, hto, hd, hfrom] at hcs
          case some fromLoc =>
            simp only [undoCommitStock, hty, hto, hd, hfrom, Option.some.injEq] at hcs
            rw [← hcs]
            exact stockUpsertIncrement_nonneg h1 htq

/-- Witness for C5 at the two-putaway store. -/
theorem undo_preserves_nonneg_witness :
    stockNonneg (undoPost ordDb "t2" 10).2.stock :=
  undo_preserves_nonneg ordDb "t2" 10 (by decide) (by decide) (by decide)

/-- C8: a successful undo keeps every core field of the target record and
changes only its undo fields, creates and deletes no record, and leaves every
stock key other than the record's item at its from/to locations untouched. -/
theorem undo_frame (db : DB) (tid : String) (now : Nat) (tNew : Transaction)
    (hok : (undoPost db tid now).1 = UndoResult.ok tNew) :
    ∃ t, findTransaction db tid = some t ∧
      tNew.id = t.id ∧ tNew.type = t.type ∧ tNew.quantity = t.quantity ∧
      tNew.itemId = t.itemId ∧ tNew.fromLocationId = t.fromLocationId ∧
      tNew.toLocationId = t.toLocationId ∧ tNew.userId = t.userId ∧
      tNew.createdAt = t.createdAt ∧
      (undoPost db tid now).2.transactions.length = db.transactions.length ∧
      (∀ u ∈ db.transactions, ¬ u.id = tid → u ∈ (undoPost db tid now).2.transactions) ∧
      findTransaction (undoPost db tid now).2 tid = some tNew ∧
      (∀ i l : String,
        ¬(i = t.itemId ∧ (t.fromLocationId = some l ∨ t.toLocationId = some l)) →
        getQty (undoPost db tid now).2.stock i l = getQty db.stock i l) := by
  obtain ⟨t, dbN, hv, hc, hp⟩ := undoPost_ok_inv hok
  obtain ⟨hcs, htr, htN⟩ := undoCommit_some_inv hc
  obtain ⟨hf, hs, hm, hsuf⟩ := undoValidate_ok_inv hv
  have hid : t.id = tid := (findTransactionList_some hf).2
  have h2 : (undoPost db tid now).2 = dbN := by rw [hp]
  rw [h2]
  subst htN
  refine ⟨t, hf, rfl, rfl, rfl, rfl, rfl, rfl, rfl, rfl, ?_, ?_, ?_, ?_⟩
  · rw [htr]
    exact markUndone_length db.transactions t.id now
  · intro u hu hne
    rw [htr]
    exact markUndone_mem_of_ne hu (fun hcEq => hne (hcEq.trans hid))
  · unfold findTransaction
    rw [htr, hid, markUndone_find_self]
    unfold findTransaction at hf
    rw [hf]
    rfl
  · intro i l hno
    show getQty dbN.stock i l = getQty db.stock i l
    cases hty : t.type
    case PUTAWAY =>
      obtain ⟨toLoc, e0, hto, hsf, hqe⟩ := hsuf (Or.inr hty)
      simp only [undoCommitStock, hty, hto] at hcs
      refine (getQty_decrement hcs).2 i l ?_
      rintro ⟨rfl, rfl⟩
      exact hno ⟨rfl, Or.inr hto⟩
    case REMOVE =>
      cases hfrom : t.fromLocationId
      · simp [undoCommitStock, hty, hfrom] at hcs
      case some fromLoc =>
        simp only [undoCommitStock, hty, hfrom, Option.some.injEq] at hcs
        rw [← hcs]
        refine (getQty_upsert db.stock t.itemId fromLoc t.quantity).2 i l ?_
        rintro ⟨rfl, rfl⟩
        exact hno ⟨rfl, Or.inl hfrom⟩
    case MOVE =>
      obtain ⟨toLoc, e0, hto, hsf, hqe⟩ := hsuf (Or.inl hty)
      cases hd : stockDecrement db.stock t.itemId toLoc t.quantity
      · simp [undoCommitStock, hty, hto, hd] at hcs
      case some stock1 =>
        cases hfrom : t.fromLocationId
        · simp [undoCommitStock, hty, hto, hd, hfrom] at hcs
        case some fromLoc =>
          simp only [undoCommitStock, hty, hto, hd, hfrom, Option.some.injEq] at hcs
          rw [← hcs]
          have hstep1 : getQty (stockUpsertIncrement stock1 t.itemId fromLoc t.quantity) i l
              = getQty stock1 i l := by
            refine (getQty_upsert stock1 t.itemId fromLoc t.quantity).2 i l ?_
            rintro ⟨rfl, rfl⟩
            exact hno ⟨rfl, Or.inl hfrom⟩
          have hstep2 : getQty stock1 i l = getQty db.stock i l := by
            refine (getQty_decrement hd).2 i l ?_
            rintro ⟨rfl, rfl⟩
            exact hno ⟨rfl, Or.inr hto⟩
          rw [hstep1, hstep2]

/-- Witness for C8 at the two-putaway store. -/
theorem undo_frame_witness :
    ∃ t, findTransaction ordDb "t2" = some t ∧
      (markUndoneRecord ordT2 10).id = t.id ∧
      (markUndoneRecord ordT2 10).type = t.type ∧
      (markUndoneRecord ordT2 10).quantity = t.quantity ∧
      (markUndoneRecord ordT2 10).itemId = t.itemId ∧
      (markUndoneRecord ordT2 10).fromLocationId = t.fromLocationId ∧
      (markUndoneRecord ordT2 10).toLocationId = t.toLocationId ∧
      (markUndoneRecord ordT2 10).userId = t.userId ∧
      (markUndoneRecord ordT2 10).createdAt = t.createdAt ∧
      (undoPost ordDb "t2" 10).2.transactions.length = ordDb.transactions.length ∧
      (∀ u ∈ ordDb.transactions, ¬ u.id = "t2" →
        u ∈ (undoPost ordDb "t2" 10).2.transactions) ∧
      findTransaction (undoPost ordDb "t2" 10).2 "t2" = some (markUndoneRecord ordT2 10) ∧
      (∀ i l : String,
        ¬(i = t.itemId ∧ (t.fromLocationId = some l ∨ t.toLocationId = some l)) →
        getQty (undoPost ordDb "t2" 10).2.stock i l = getQty ordDb.stock i l) :=
  undo_frame ordDb "t2" 10 (markUndoneRecord ordT2 10) (by decide)

/-- C10: for a COMPLETED record of the store, whenever the rendered list
contains exactly the store's transactions of the record's item, the client's
disable predicate holds iff the handler would answer NotLatest. -/
theorem client_recency_matches_server (list : List Transaction) (db : DB)
    (t : Transaction) (now : Nat)
    (hf : findTransaction db t.id = some t)
    (hs : t.status = TxStatus.COMPLETED)
    (hall : ∀ u ∈ db.transactions, u.itemId = t.itemId → u ∈ list)
    (hsub : ∀ u ∈ list, u.itemId = t.itemId → u ∈ db.transactions) :
    (hasNewerTransactions list t = true ↔
      (undoPost db t.id now).1 = UndoResult.err UndoError.notLatest) := by
  rw [undoPost_notLatest_iff now hf hs]
  unfold hasNewerTransactions
  rw [decide_eq_true_iff]
  constructor
  · intro hpos
    obtain ⟨u, hu⟩ := List.exists_mem_of_length_pos hpos
    obtain ⟨hul, hp⟩ := List.mem_filter.mp hu
    have hp2 := of_decide_eq_true hp
    exact ⟨u, hsub u hul hp2.1, hp2.1, hp2.2.2, hp2.2.1⟩
  · rintro ⟨u, hu, hp⟩
    have hul : u ∈ list := hall u hu hp.1
    have hmem : u ∈ list.filter (fun v =>
        decide (v.itemId = t.itemId ∧ v.status = TxStatus.COMPLETED ∧
          t.createdAt < v.createdAt)) :=
      List.mem_filter.mpr ⟨hul, decide_eq_true ⟨hp.1, hp.2.2, hp.2.1⟩⟩
    exact List.length_pos_of_mem hmem

/-- Witness for C10 with the full two-putaway transaction list. -/
theorem client_recency_matches_server_witness :
    hasNewerTransactions ordDb.transactions ordT1 = true ↔
      (undoPost ordDb "t1" 10).1 = UndoResult.err UndoError.notLatest :=
  client_recency_matches_server ordDb.transactions ordDb ordT1 10 (by decide) (by decide)
    (fun u hu _ => hu) (fun u hu _ => hu)
